import Mathlib

/-!
Shallow embedding of the post categorization engine of
`src/scraper/processor.py` (class `DataProcessor`) together with its
pattern configuration from `src/config.py`, and proofs of the spec's
claims about it.

Conventions of the embedding:
* a Python `dict` post record becomes a `Post` structure whose fields are
  all `Option`s (every access in the source goes through `dict.get` with a
  default, so absence is representable);
* Python `dict`s used as insertion-ordered maps (the category tree, the
  statistics counters) become association lists `List (String × _)`;
  `dict[k] = v` is `setK`, `defaultdict` append is `bappend`/`tappend`;
* `re.search` with the concrete patterns of `config.py` is hand-rolled:
  each configured regex becomes a matcher over `List Char`, searched at
  every position left to right (leftmost match), alternations tried in
  order with backtracking where the regex needs it.  `\s` is modelled as
  ASCII whitespace, `\d` as ASCII digits, `[a-z]` under `re.IGNORECASE`
  as ASCII letters of either case — faithful on the ASCII text the
  patterns target.
-/

/-- A scraped forum post record, the input of `DataProcessor`.  Mirrors the
dynamic dict consumed by `src/scraper/processor.py`: every field may be
absent (the source reads each one with `dict.get` plus a default), hence
`Option`.  `answers` and `followups` are sequences of sub-records the core
treats as opaque (only `len` is read), modelled as `List Unit`. -/
structure Post where
  folders : Option (List String) := none
  tags : Option (List String) := none
  title : Option String := none
  content : Option String := none
  type : Option String := none
  is_resolved : Option Bool := none
  author_role : Option String := none
  answers : Option (List Unit) := none
  followups : Option (List Unit) := none
deriving DecidableEq

/-- Python `\s` (ASCII part): the whitespace characters of `re`. -/
def isSpaceC (c : Char) : Bool :=
  c = ' ' || c = '\t' || c = '\n' || c = '\r' || c = Char.ofNat 11 || c = Char.ofNat 12

/-- Python `\d` (ASCII digits). -/
def isDigitC (c : Char) : Bool := c.isDigit

/-- Case-insensitive character comparison (`re.IGNORECASE`). -/
def lowEq (a b : Char) : Bool := a.toLower == b.toLower

/-- Match a literal word case-insensitively at the head of `s`, returning
the remainder on success. -/
def dropLit : List Char → List Char → Option (List Char)
  | [], s => some s
  | _ :: _, [] => none
  | c :: cs, d :: ds => if lowEq c d then dropLit cs ds else none

/-- Greedy `\s*`. -/
def skipWs : List Char → List Char
  | [] => []
  | c :: cs => if isSpaceC c then skipWs cs else c :: cs

/-- One pset pattern of `config.PSET_PATTERNS` is a sequence of literal
words, each followed by `\s*`, ending in the capture `(\d+)`:
e.g. `pset\s*(\d+)` is `["pset"]`, `problem\s*set\s*(\d+)` is
`["problem", "set"]`.  `matchPsetAt` attempts such a pattern anchored at
the head of `s`, returning the captured digit group.  (`\s*` and `\d+`
consume disjoint character classes, so the greedy match never needs to
backtrack.) -/
def matchPsetAt (lits : List String) (s : List Char) : Option String :=
  match lits with
  | [] =>
    let ds := s.takeWhile isDigitC
    if ds.isEmpty then none else some (String.mk ds)
  | l :: ls =>
    match dropLit l.data s with
    | some rest => matchPsetAt ls (skipWs rest)
    | none => none

/-- Model of `re.search`: try the anchored matcher at every position, leftmost
match wins. -/
def searchWith (m : List Char → Option String) : List Char → Option String
  | [] => m []
  | c :: rest =>
    match m (c :: rest) with
    | some d => some d
    | none => searchWith m rest

/-- Embedding of `config.PSET_PATTERNS`, in configured order:
`pset\s*(\d+)`, `problem\s*set\s*(\d+)`, `hw\s*(\d+)`, `homework\s*(\d+)`,
`assignment\s*(\d+)` (all compiled with `re.IGNORECASE`). -/
def PSET_PATTERNS : List (List String) :=
  [["pset"], ["problem", "set"], ["hw"], ["homework"], ["assignment"]]

/-- The inner loop `for pattern in self.pset_patterns: pattern.search(s)`:
first pattern (in configured order) that matches anywhere in `s`, giving
`match.group(1)`. -/
def psetGroupSearch (s : String) : Option String :=
  PSET_PATTERNS.findSome? (fun lits => searchWith (matchPsetAt lits) s.data)

/-- The capture group `(\d+(?:\.\d+)?(?:[a-z])?)` shared by all of
`config.PROBLEM_PATTERNS`, anchored at the head of `s`; returns the
captured characters and the remainder.  Greedy throughout; the three
pieces consume disjoint character classes (digits / dot-digits / letter),
so greedy matching is exact. -/
def matchTok (s : List Char) : Option (List Char × List Char) :=
  let ds := s.takeWhile isDigitC
  if ds.isEmpty then none
  else
    let r1 := s.dropWhile isDigitC
    let decPart : List Char × List Char :=
      match r1 with
      | '.' :: rest =>
        let ds2 := rest.takeWhile isDigitC
        if ds2.isEmpty then ([], r1) else ('.' :: ds2, rest.dropWhile isDigitC)
      | _ => ([], r1)
    let sufPart : List Char × List Char :=
      match decPart.2 with
      | c :: rest => if c.isAlpha then ([c], rest) else ([], decPart.2)
      | [] => ([], decPart.2)
    some (ds ++ decPart.1 ++ sufPart.1, sufPart.2)

/-- Problem pattern 1, `(?:problem|q|question|part)\s*(TOK)` with
`TOK = \d+(?:\.\d+)?(?:[a-z])?`, anchored at the head of `s`.  The
alternation is tried in source order; on failure of the tail the engine
backtracks into the next alternative (e.g. `q` fails on "question1" and
`question` then succeeds). -/
def matchProbAAt (s : List Char) : Option String :=
  ["problem", "q", "question", "part"].findSome? (fun w =>
    match dropLit w.data s with
    | some rest => (matchTok (skipWs rest)).map (fun x => String.mk x.1)
    | none => none)

/-- Problem pattern 2, `(?:prob|p)\.?\s*(TOK)`, anchored.  The greedy
`\.?` first consumes a dot when present and backtracks to the empty match
if the tail then fails. -/
def matchProbBAt (s : List Char) : Option String :=
  ["prob", "p"].findSome? (fun w =>
    match dropLit w.data s with
    | some rest =>
      let withDot : Option String :=
        match rest with
        | '.' :: r2 => (matchTok (skipWs r2)).map (fun x => String.mk x.1)
        | _ => none
      match withDot with
      | some d => some d
      | none => (matchTok (skipWs rest)).map (fun x => String.mk x.1)
    | none => none)

/-- Problem pattern 3, `\((TOK)\)`, anchored.  `TOK`'s greedy pieces end
on character classes disjoint from `)`, so if `)` does not follow the
greedy token no backtracking can succeed either. -/
def matchProbCAt (s : List Char) : Option String :=
  match s with
  | '(' :: rest =>
    match matchTok rest with
    | some (tok, r2) =>
      match r2 with
      | ')' :: _ => some (String.mk tok)
      | _ => none
    | none => none
  | _ => none

/-- Embedding of `config.PROBLEM_PATTERNS`, in configured order. -/
def PROBLEM_MATCHERS : List (List Char → Option String) :=
  [matchProbAAt, matchProbBAt, matchProbCAt]

/-- The inner loop `for pattern in self.problem_patterns: pattern.search(s)`. -/
def problemGroupSearch (s : String) : Option String :=
  PROBLEM_MATCHERS.findSome? (fun m => searchWith m s.data)

/-- Python `str.lower()` (ASCII). -/
def strLower (s : String) : String := String.mk (s.data.map Char.toLower)

/-- Embedding of `DataProcessor._extract_pset` (`src/scraper/processor.py`): folders,
then tags, then title, then the first 500 characters of content; within a
field the patterns are tried in configured order; first hit wins; result
`"pset" + group(1)`. -/
def _extract_pset (p : Post) : Option String :=
  match (p.folders.getD []).findSome? psetGroupSearch with
  | some d => some ("pset" ++ d)
  | none =>
    match (p.tags.getD []).findSome? psetGroupSearch with
    | some d => some ("pset" ++ d)
    | none =>
      match psetGroupSearch (p.title.getD "") with
      | some d => some ("pset" ++ d)
      | none =>
        match psetGroupSearch (String.mk (((p.content.getD "").data).take 500)) with
        | some d => some ("pset" ++ d)
        | none => none

/-- Embedding of `DataProcessor._extract_problem`: title, then folders, then the first
300 characters of content; result `"problem" + group(1).lower()`. -/
def _extract_problem (p : Post) : Option String :=
  match problemGroupSearch (p.title.getD "") with
  | some d => some ("problem" ++ strLower d)
  | none =>
    match (p.folders.getD []).findSome? problemGroupSearch with
    | some d => some ("problem" ++ strLower d)
    | none =>
      match problemGroupSearch (String.mk (((p.content.getD "").data).take 300)) with
      | some d => some ("problem" ++ strLower d)
      | none => none

/-- The category tree `{pset: {problem: [posts]}}` as an insertion-ordered
association list, the embedding of the (insertion-ordered) Python dicts. -/
abbrev CatTree : Type := List (String × List (String × List Post))

/-- Python dict assignment `m[k] = v` on an insertion-ordered map: update
in place if the key exists (first occurrence), else append at the end. -/
def setK {β : Type} : List (String × β) → String → β → List (String × β)
  | [], k, v => [(k, v)]
  | (k', v') :: rest, k, v =>
    if k = k' then (k, v) :: rest else (k', v') :: setK rest k v

/-- Ordered-map lookup (first occurrence). -/
def alookup {β : Type} : List (String × β) → String → Option β
  | [], _ => none
  | (k', v) :: rest, k => if k = k' then some v else alookup rest k

/-- The `defaultdict(list)` append `m[k].append(p)`. -/
def bappend : List (String × List Post) → String → Post → List (String × List Post)
  | [], k, p => [(k, [p])]
  | (k', ps) :: rest, k, p =>
    if k = k' then (k', ps ++ [p]) :: rest else (k', ps) :: bappend rest k p

/-- Nested `defaultdict(lambda: defaultdict(list))` append:
`categorized[k1][k2].append(p)`. -/
def tappend : CatTree → String → String → Post → CatTree
  | [], k1, k2, p => [(k1, [(k2, [p])])]
  | (k, inner) :: rest, k1, k2, p =>
    if k1 = k then (k, bappend inner k2 p) :: rest
    else (k, inner) :: tappend rest k1 k2 p

/-- The `for post in posts:` loop of `DataProcessor.categorize_posts`,
with the loop state (`categorized`, `uncategorized`) as accumulators. -/
def categorizeLoop : List Post → CatTree → List Post → CatTree × List Post
  | [], t, u => (t, u)
  | p :: ps, t, u =>
    match _extract_pset p with
    | some pset =>
      match _extract_problem p with
      | some prob => categorizeLoop ps (tappend t pset prob p) u
      | none => categorizeLoop ps (tappend t pset "general" p) u
    | none => categorizeLoop ps t (u ++ [p])

/-- Embedding of `DataProcessor.categorize_posts`: run the loop, then (when the
uncategorized list is non-empty) `categorized["uncategorized"]["all"] =
uncategorized`.  The final conversion of defaultdicts to plain dicts
preserves entries and order, so it is the identity here. -/
def categorize_posts (posts : List Post) : CatTree :=
  if (categorizeLoop posts [] []).2.isEmpty then (categorizeLoop posts [] []).1
  else setK (categorizeLoop posts [] []).1 "uncategorized" [("all", (categorizeLoop posts [] []).2)]

/-- The author-role test of `DataProcessor.filter_student_posts`:
`p.get("author_role") in ["student", "anonymous"]` (an absent field reads
as `None`, which is in neither). -/
def roleAllowed (p : Post) : Bool :=
  match p.author_role with
  | some r => r = "student" || r = "anonymous"
  | none => false

/-- The list comprehension `[p for p in posts if p.get("author_role") in
["student", "anonymous"]]`. -/
def studentFilterPosts : List Post → List Post
  | [] => []
  | p :: ps => if roleAllowed p then p :: studentFilterPosts ps else studentFilterPosts ps

/-- Inner loop of `filter_student_posts` over `problems.items()`,
accumulating into the fresh dict `filtered[pset]`; an empty filtered
bucket is not assigned. -/
def filterProblems (acc : List (String × List Post)) :
    List (String × List Post) → List (String × List Post)
  | [] => acc
  | (k2, posts) :: rest =>
    let sp := studentFilterPosts posts
    filterProblems (if sp.isEmpty then acc else setK acc k2 sp) rest

/-- Outer loop of `filter_student_posts` over `categorized.items()`:
`filtered[pset] = {}` first, then the inner loop fills that entry. -/
def filterOuter (acc : CatTree) : CatTree → CatTree
  | [] => acc
  | (k1, probs) :: rest =>
    filterOuter (setK (setK acc k1 []) k1 (filterProblems [] probs)) rest

/-- Embedding of `DataProcessor.filter_student_posts`. -/
def filter_student_posts (t : CatTree) : CatTree := filterOuter [] t

/-- The statistics record built by `DataProcessor.get_statistics`. -/
structure Stats where
  total_posts : Nat
  total_psets : Nat
  posts_by_pset : List (String × Nat)
  posts_by_type : List (String × Nat)
  resolved_count : Nat
  unresolved_count : Nat
  total_answers : Nat
  total_followups : Nat
deriving DecidableEq

/-- The initial `stats` dict of `get_statistics`. -/
def statsInit : Stats :=
  { total_posts := 0, total_psets := 0, posts_by_pset := [], posts_by_type := [],
    resolved_count := 0, unresolved_count := 0, total_answers := 0, total_followups := 0 }

/-- The `defaultdict(int)` increment `m[k] += 1`. -/
def bumpCount : List (String × Nat) → String → List (String × Nat)
  | [], k => [(k, 1)]
  | (k', n) :: rest, k =>
    if k = k' then (k', n + 1) :: rest else (k', n) :: bumpCount rest k

/-- The per-post body of `get_statistics`'s innermost loop. -/
def statsAddPost (st : Stats) (p : Post) : Stats :=
  let st := { st with posts_by_type := bumpCount st.posts_by_type (p.type.getD "unknown") }
  let st :=
    if p.is_resolved.getD false then { st with resolved_count := st.resolved_count + 1 }
    else { st with unresolved_count := st.unresolved_count + 1 }
  { st with
    total_answers := st.total_answers + (p.answers.getD []).length,
    total_followups := st.total_followups + (p.followups.getD []).length }

/-- The loop `for post in posts:` of `get_statistics`. -/
def statsOverPosts (st : Stats) : List Post → Stats
  | [] => st
  | p :: ps => statsOverPosts (statsAddPost st p) ps

/-- The loop `for problem, posts in problems.items():` of `get_statistics`,
threading the running `pset_count`. -/
def statsOverProblems (st : Stats) (cnt : Nat) :
    List (String × List Post) → Stats × Nat
  | [] => (st, cnt)
  | (_, posts) :: rest =>
    statsOverProblems
      (statsOverPosts { st with total_posts := st.total_posts + posts.length } posts)
      (cnt + posts.length) rest

/-- The loop `for pset, problems in categorized.items():` of `get_statistics`. -/
def statsLoop (st : Stats) : CatTree → Stats
  | [] => st
  | (k, probs) :: rest =>
    let st1 := if k = "uncategorized" then st
               else { st with total_psets := st.total_psets + 1 }
    let r := statsOverProblems st1 0 probs
    statsLoop { r.1 with posts_by_pset := setK r.1.posts_by_pset k r.2 } rest

/-- Embedding of `DataProcessor.get_statistics` (the final `dict(...)` conversion of
`posts_by_type` preserves entries and order, so it is the identity). -/
def get_statistics (t : CatTree) : Stats := statsLoop statsInit t

/-- The state-passing embedding of the inner loop of
`filter_student_posts`: `σ` is the caller's tree (the mutable object the
claim is about); each iteration returns the possibly-updated `σ`.  The
loop body only reads `σ` (list comprehension plus writes to the fresh
`filtered`), so no branch updates it. -/
def filterProblemsSt (σ : CatTree) (acc : List (String × List Post)) :
    List (String × List Post) → CatTree × List (String × List Post)
  | [] => (σ, acc)
  | (k2, posts) :: rest =>
    let sp := studentFilterPosts posts
    filterProblemsSt σ (if sp.isEmpty then acc else setK acc k2 sp) rest

/-- State-passing embedding of the outer loop of `filter_student_posts`. -/
def filterOuterSt (σ : CatTree) (acc : CatTree) : CatTree → CatTree × CatTree
  | [] => (σ, acc)
  | (k1, probs) :: rest =>
    let r := filterProblemsSt σ [] probs
    filterOuterSt r.1 (setK (setK acc k1 []) k1 r.2) rest

/-- The function `filter_student_posts` with the caller's tree threaded as explicit
state, returning `(tree after the call, result)`. -/
def filter_student_posts_st (t : CatTree) : CatTree × CatTree :=
  filterOuterSt t [] t

/-- State-passing embedding of `get_statistics`'s innermost loop. -/
def statsOverPostsSt (σ : CatTree) (st : Stats) : List Post → CatTree × Stats
  | [] => (σ, st)
  | p :: ps => statsOverPostsSt σ (statsAddPost st p) ps

/-- State-passing embedding of `get_statistics`'s middle loop. -/
def statsOverProblemsSt (σ : CatTree) (st : Stats) (cnt : Nat) :
    List (String × List Post) → CatTree × Stats × Nat
  | [] => (σ, st, cnt)
  | (_, posts) :: rest =>
    let r := statsOverPostsSt σ { st with total_posts := st.total_posts + posts.length } posts
    statsOverProblemsSt r.1 r.2 (cnt + posts.length) rest

/-- State-passing embedding of `get_statistics`'s outer loop. -/
def statsLoopSt (σ : CatTree) (st : Stats) : CatTree → CatTree × Stats
  | [] => (σ, st)
  | (k, probs) :: rest =>
    let st1 := if k = "uncategorized" then st
               else { st with total_psets := st.total_psets + 1 }
    let r := statsOverProblemsSt σ st1 0 probs
    statsLoopSt r.1 { r.2.1 with posts_by_pset := setK r.2.1.posts_by_pset k r.2.2 } rest

/-- The function `get_statistics` with the caller's tree threaded as explicit state. -/
def get_statistics_st (t : CatTree) : CatTree × Stats := statsLoopSt t statsInit t

/-- Read one `(assignment, problem)` bucket of a tree; an absent key at
either level reads as the empty sequence. -/
def bucketAt (t : CatTree) (k1 k2 : String) : List Post :=
  (alookup ((alookup t k1).getD []) k2).getD []

/-- The problem-level key `categorize_posts` files a pset-matched post
under. -/
def probKey (p : Post) : String :=
  match _extract_problem p with
  | some b => b
  | none => "general"

/-- The unique `(assignment, problem)` key pair `categorize_posts` routes
a post to. -/
def bucketKeyOf (p : Post) : String × String :=
  match _extract_pset p with
  | some a => (a, probKey p)
  | none => ("uncategorized", "all")

/-- Predicate "this post is filed under `(k1, k2)` by the main loop" (false for
uncategorized posts, which the loop diverts to the side list). -/
def routedTo (p : Post) (k1 k2 : String) : Bool :=
  match _extract_pset p with
  | some a => a = k1 && probKey p = k2
  | none => false

/-- All posts of a tree, read back in tree-then-bucket order. -/
def allPosts (t : CatTree) : List Post :=
  (t.map (fun e => (e.2.map Prod.snd).flatten)).flatten

/-- Occurrence count of a post value in a list. -/
def cnt (p : Post) : List Post → Nat
  | [] => 0
  | q :: qs => (if q = p then 1 else 0) + cnt p qs

/-- The ordered field list the spec prescribes for assignment extraction:
folders, then tags, then title, then the first 500 content characters. -/
def psetSpecFields (p : Post) : List String :=
  p.folders.getD [] ++ p.tags.getD [] ++
    [p.title.getD "", String.mk (((p.content.getD "").data).take 500)]

/-- Spec-side reconstruction of assignment extraction: the first field
(in the spec's order) on which some configured pattern matches yields the
result `"pset" + captured group`. -/
def psetSpecSearch (p : Post) : Option String :=
  ((psetSpecFields p).findSome? psetGroupSearch).map (fun d => "pset" ++ d)

/-- The ordered field list the spec prescribes for problem extraction:
title, then folders, then the first 300 content characters. -/
def problemSpecFields (p : Post) : List String :=
  [p.title.getD ""] ++ p.folders.getD [] ++
    [String.mk (((p.content.getD "").data).take 300)]

/-- Spec-side reconstruction of problem extraction:
`"problem" + captured_group_1.lower()` from the first matching field. -/
def problemSpecSearch (p : Post) : Option String :=
  ((problemSpecFields p).findSome? problemGroupSearch).map (fun d => "problem" ++ strLower d)

/-- Truncate a post's content to its first `n` characters (the slice
`content[:n]` of the source). -/
def truncateContent (n : Nat) (p : Post) : Post :=
  { p with content := some (String.mk (((p.content.getD "").data).take n)) }

/-- Replace every absent field by the default the source supplies to
`dict.get` at that field's use sites (`author_role` is left as is: its
only consumer defaults it to the absent sentinel `None`). -/
def fillDefaults (p : Post) : Post :=
  { folders := some (p.folders.getD []), tags := some (p.tags.getD []),
    title := some (p.title.getD ""), content := some (p.content.getD ""),
    type := some (p.type.getD "unknown"), is_resolved := some (p.is_resolved.getD false),
    author_role := p.author_role, answers := some (p.answers.getD []),
    followups := some (p.followups.getD []) }

/-- Map a function over every post of a tree, keeping all keys. -/
def treeMap (f : Post → Post) (t : CatTree) : CatTree :=
  t.map (fun e => (e.1, e.2.map (fun e2 => (e2.1, e2.2.map f))))

/-- What the inner loop of `filter_student_posts` produces from one
problem map: buckets filtered to allowed roles, empty results dropped. -/
def innerFiltered (probs : List (String × List Post)) : List (String × List Post) :=
  probs.filterMap (fun e2 =>
    let sp := studentFilterPosts e2.2
    if sp.isEmpty then none else some (e2.1, sp))

/-- Well-formedness a tree inherits from being a Python dict of dicts:
no duplicate keys at either level. -/
def treeWF (t : CatTree) : Prop :=
  (t.map Prod.fst).Nodup ∧ ∀ e ∈ t, (e.2.map Prod.fst).Nodup

instance (t : CatTree) : Decidable (treeWF t) := by
  unfold treeWF; infer_instance

/-! ### Association-list lemmas -/

theorem alookup_setK {β : Type} (m : List (String × β)) (k k' : String) (v : β) :
    alookup (setK m k v) k' = if k' = k then some v else alookup m k' := by
  induction m with
  | nil => simp [setK, alookup]
  | cons e rest ih =>
    obtain ⟨ke, ve⟩ := e
    by_cases hk : k = ke
    · subst hk
      by_cases hk' : k' = k <;> simp [setK, alookup, hk']
    · by_cases hk' : k' = ke
      · subst hk'
        simp [setK, alookup, hk, Ne.symm hk]
      · simp [setK, alookup, hk, hk', ih]

theorem alookup_eq_none_of_not_mem {β : Type} (m : List (String × β)) (k : String)
    (h : k ∉ m.map Prod.fst) : alookup m k = none := by
  induction m with
  | nil => rfl
  | cons e rest ih =>
    simp only [List.map_cons, List.mem_cons, not_or] at h
    simp [alookup, h.1, ih h.2]

theorem setK_absent {β : Type} (m : List (String × β)) (k : String) (v : β)
    (h : k ∉ m.map Prod.fst) : setK m k v = m ++ [(k, v)] := by
  induction m with
  | nil => rfl
  | cons e rest ih =>
    simp only [List.map_cons, List.mem_cons, not_or] at h
    simp [setK, h.1, ih h.2]

theorem setK_append_last {β : Type} (m : List (String × β)) (k : String) (v w : β)
    (h : k ∉ m.map Prod.fst) : setK (m ++ [(k, v)]) k w = m ++ [(k, w)] := by
  induction m with
  | nil => simp [setK]
  | cons e rest ih =>
    simp only [List.map_cons, List.mem_cons, not_or] at h
    simp [setK, h.1, ih h.2]

theorem alookup_map_value {β γ : Type} (m : List (String × β)) (f : β → γ) (k : String) :
    alookup (m.map (fun e => (e.1, f e.2))) k = (alookup m k).map f := by
  induction m with
  | nil => rfl
  | cons e rest ih =>
    by_cases hk : k = e.1 <;> simp [alookup, hk, ih]

/-! ### Bucket lemmas for the categorizer -/

theorem alookup_bappend (m : List (String × List Post)) (b k2 : String) (p : Post) :
    (alookup (bappend m b p) k2).getD [] =
      (alookup m k2).getD [] ++ (if b = k2 then [p] else []) := by
  induction m with
  | nil =>
    by_cases h : b = k2
    · subst h; simp [bappend, alookup]
    · simp [bappend, alookup, Ne.symm h, h]
  | cons e rest ih =>
    obtain ⟨ke, ps⟩ := e
    by_cases hb : b = ke
    · subst hb
      by_cases hk : k2 = b
      · subst hk; simp [bappend, alookup]
      · have hbk : ¬b = k2 := fun h => hk h.symm
        simp [bappend, alookup, hk, hbk]
    · by_cases hk : k2 = ke
      · subst hk
        simp [bappend, alookup, hb, Ne.symm hb]
      · simp [bappend, alookup, hb, hk, ih]

theorem bucketAt_tappend (t : CatTree) (a b k1 k2 : String) (p : Post) :
    bucketAt (tappend t a b p) k1 k2 =
      bucketAt t k1 k2 ++ (if a = k1 ∧ b = k2 then [p] else []) := by
  induction t with
  | nil =>
    by_cases h1 : a = k1
    · subst h1
      by_cases h2 : b = k2
      · subst h2; simp [tappend, bucketAt, alookup]
      · simp [tappend, bucketAt, alookup, h2, Ne.symm h2]
    · simp [tappend, bucketAt, alookup, h1, Ne.symm h1]
  | cons e rest ih =>
    obtain ⟨ke, inner⟩ := e
    by_cases ha : a = ke
    · subst ha
      by_cases hk : k1 = a
      · subst hk
        simp [tappend, bucketAt, alookup, alookup_bappend]
      · have : ¬(a = k1 ∧ b = k2) := fun hc => hk hc.1.symm
        simp [tappend, bucketAt, alookup, hk, this]
    · by_cases hk : k1 = ke
      · subst hk
        have : ¬(a = k1 ∧ b = k2) := fun hc => ha hc.1
        simp [tappend, bucketAt, alookup, ha, this]
      · simp only [tappend, if_neg ha, bucketAt, alookup, if_neg hk]
        exact ih

theorem alookup_tappend_other (t : CatTree) (a b k : String) (p : Post) (h : a ≠ k) :
    alookup (tappend t a b p) k = alookup t k := by
  induction t with
  | nil => simp [tappend, alookup, Ne.symm h]
  | cons e rest ih =>
    obtain ⟨ke, inner⟩ := e
    by_cases ha : a = ke
    · subst ha
      simp [tappend, alookup, Ne.symm h]
    · by_cases hk : k = ke <;> simp [tappend, alookup, ha, hk, ih]

/-! ### The categorize loop invariant -/

theorem categorizeLoop_bucket (ps : List Post) (t : CatTree) (u : List Post) (k1 k2 : String) :
    bucketAt (categorizeLoop ps t u).1 k1 k2 =
      bucketAt t k1 k2 ++ ps.filter (fun p => routedTo p k1 k2) := by
  induction ps generalizing t u with
  | nil => simp [categorizeLoop]
  | cons p rest ih =>
    rcases hp : _extract_pset p with _ | a
    · have hr : routedTo p k1 k2 = false := by simp [routedTo, hp]
      simp [categorizeLoop, hp, ih, List.filter_cons, hr]
    · rcases hq : _extract_problem p with _ | bb
      · have hpk : probKey p = "general" := by simp [probKey, hq]
        by_cases hroute : a = k1 ∧ "general" = k2
        · have hr : routedTo p k1 k2 = true := by
            simp [routedTo, hp, hpk, hroute.1, hroute.2]
          simp [categorizeLoop, hp, hq, ih, bucketAt_tappend, List.filter_cons, hr, hroute,
            List.append_assoc]
        · have hr : routedTo p k1 k2 = false := by
            simp only [routedTo, hp, hpk]
            rcases not_and_or.mp hroute with h | h <;> simp [h]
          simp [categorizeLoop, hp, hq, ih, bucketAt_tappend, List.filter_cons, hr, hroute]
      · have hpk : probKey p = bb := by simp [probKey, hq]
        by_cases hroute : a = k1 ∧ bb = k2
        · have hr : routedTo p k1 k2 = true := by
            simp [routedTo, hp, hpk, hroute.1, hroute.2]
          simp [categorizeLoop, hp, hq, ih, bucketAt_tappend, List.filter_cons, hr, hroute,
            List.append_assoc]
        · have hr : routedTo p k1 k2 = false := by
            simp only [routedTo, hp, hpk]
            rcases not_and_or.mp hroute with h | h <;> simp [h]
          simp [categorizeLoop, hp, hq, ih, bucketAt_tappend, List.filter_cons, hr, hroute]

theorem categorizeLoop_uncat (ps : List Post) (t : CatTree) (u : List Post) :
    (categorizeLoop ps t u).2 = u ++ ps.filter (fun p => (_extract_pset p).isNone) := by
  induction ps generalizing t u with
  | nil => simp [categorizeLoop]
  | cons p rest ih =>
    rcases hp : _extract_pset p with _ | a
    · simp [categorizeLoop, hp, ih, List.filter_cons]
    · rcases hq : _extract_problem p with _ | bb <;>
        simp [categorizeLoop, hp, hq, ih, List.filter_cons]

/-! ### Shape of extracted assignment identifiers -/

theorem extract_pset_shape (p : Post) (a : String) (h : _extract_pset p = some a) :
    ∃ d, a = "pset" ++ d := by
  unfold _extract_pset at h
  split at h
  · exact ⟨_, (Option.some.inj h).symm⟩
  · split at h
    · exact ⟨_, (Option.some.inj h).symm⟩
    · split at h
      · exact ⟨_, (Option.some.inj h).symm⟩
      · split at h
        · exact ⟨_, (Option.some.inj h).symm⟩
        · exact absurd h (by simp)

theorem pset_append_ne_uncat (d : String) : ("pset" ++ d) ≠ "uncategorized" := by
  intro hc
  have h2 : ("pset" ++ d).data.head? = "uncategorized".data.head? := by rw [hc]
  have h3 : ("pset" ++ d).data.head? = some 'p' := by
    rw [String.data_append, show "pset".data = ['p', 's', 'e', 't'] from rfl]
    rfl
  exact absurd (h3 ▸ h2) (by decide)

theorem extract_pset_ne_uncat (p : Post) (a : String) (h : _extract_pset p = some a) :
    a ≠ "uncategorized" := by
  obtain ⟨d, rfl⟩ := extract_pset_shape p a h
  exact pset_append_ne_uncat d

theorem categorizeLoop_uncat_key (ps : List Post) (t : CatTree) (u : List Post)
    (h : alookup t "uncategorized" = none) :
    alookup (categorizeLoop ps t u).1 "uncategorized" = none := by
  induction ps generalizing t u with
  | nil => exact h
  | cons p rest ih =>
    rcases hp : _extract_pset p with _ | a
    · simp only [categorizeLoop, hp]
      exact ih _ _ h
    · have hne : a ≠ "uncategorized" := extract_pset_ne_uncat p a hp
      rcases hq : _extract_problem p with _ | bb <;>
        · simp only [categorizeLoop, hp, hq]
          exact ih _ _ (by rw [alookup_tappend_other _ _ _ _ _ hne]; exact h)

/-! ### Pointwise routing-predicate lemmas -/

theorem routedTo_eq_of_some (p : Post) (a k1 k2 : String) (hp : _extract_pset p = some a) :
    routedTo p k1 k2 = decide (bucketKeyOf p = (k1, k2)) := by
  simp [routedTo, bucketKeyOf, hp, Prod.ext_iff]

theorem routedTo_eq_decide (p : Post) (k1 k2 : String) (hk : k1 ≠ "uncategorized") :
    routedTo p k1 k2 = decide (bucketKeyOf p = (k1, k2)) := by
  rcases hp : _extract_pset p with _ | a
  · simp [routedTo, bucketKeyOf, hp, Prod.ext_iff, Ne.symm hk]
  · exact routedTo_eq_of_some p a k1 k2 hp

theorem bucketKey_uncat_iff (p : Post) :
    decide (bucketKeyOf p = ("uncategorized", "all")) = (_extract_pset p).isNone := by
  rcases hp : _extract_pset p with _ | a
  · simp [bucketKeyOf, hp]
  · simp [bucketKeyOf, hp, Prod.ext_iff, extract_pset_ne_uncat p a hp]

theorem bucketKey_uncat_other (p : Post) (k2 : String) (hk : k2 ≠ "all") :
    decide (bucketKeyOf p = ("uncategorized", k2)) = false := by
  rcases hp : _extract_pset p with _ | a
  · simp [bucketKeyOf, hp, Prod.ext_iff, Ne.symm hk]
  · simp [bucketKeyOf, hp, Prod.ext_iff, extract_pset_ne_uncat p a hp]

/-! ### The bucket characterization of `categorize_posts` -/

theorem bucketAt_categorize (posts : List Post) (k1 k2 : String) :
    bucketAt (categorize_posts posts) k1 k2 =
      posts.filter (fun p => decide (bucketKeyOf p = (k1, k2))) := by
  unfold categorize_posts
  have hbkt := categorizeLoop_bucket posts [] [] k1 k2
  have huncat := categorizeLoop_uncat posts [] []
  cases hu : (categorizeLoop posts [] []).2.isEmpty with
  | true =>
    have h2 : (categorizeLoop posts [] []).2 = [] := List.isEmpty_iff.mp hu
    have hall : ∀ p ∈ posts, ¬ ((_extract_pset p).isNone = true) := by
      rw [List.filter_eq_nil_iff.symm, ← List.nil_append (posts.filter _), ← huncat]
      exact h2
    rw [if_pos rfl, hbkt]
    simp only [bucketAt, alookup, Option.getD_none, List.nil_append]
    refine List.filter_congr (fun p hp => ?_)
    rcases hps : _extract_pset p with _ | a
    · exact absurd (by simp [hps]) (hall p hp)
    · exact routedTo_eq_of_some p a k1 k2 hps
  | false =>
    rw [if_neg Bool.false_ne_true]
    have hbase : alookup (categorizeLoop posts [] []).1 "uncategorized" = none :=
      categorizeLoop_uncat_key posts [] [] rfl
    by_cases hk1 : k1 = "uncategorized"
    · subst hk1
      unfold bucketAt
      rw [alookup_setK]
      simp only [if_pos rfl, Option.getD_some]
      by_cases hk2 : k2 = "all"
      · subst hk2
        simp only [alookup, if_pos rfl, Option.getD_some]
        rw [huncat, List.nil_append]
        exact List.filter_congr (fun p _ => (bucketKey_uncat_iff p).symm)
      · simp only [alookup, if_neg hk2, Option.getD_none]
        rw [List.filter_congr (fun p _ => (bucketKey_uncat_other p k2 hk2))]
        simp
    · unfold bucketAt
      rw [alookup_setK, if_neg hk1]
      have := hbkt
      unfold bucketAt at this
      simp only [alookup, Option.getD_none, List.nil_append] at this
      rw [this]
      exact List.filter_congr (fun p _ => routedTo_eq_decide p k1 k2 hk1)

/-! ### Occurrence counting: no post is dropped or duplicated -/

/-- The posts of one problem map, in order. -/
def innerPosts (m : List (String × List Post)) : List Post := (m.map Prod.snd).flatten

theorem cnt_append (p : Post) (l1 l2 : List Post) :
    cnt p (l1 ++ l2) = cnt p l1 + cnt p l2 := by
  induction l1 with
  | nil => simp [cnt]
  | cons q qs ih => simp [cnt, ih]; omega

theorem cnt_innerPosts_bappend (m : List (String × List Post)) (b : String) (q p : Post) :
    cnt p (innerPosts (bappend m b q)) =
      cnt p (innerPosts m) + (if q = p then 1 else 0) := by
  induction m with
  | nil => simp [bappend, innerPosts, cnt]
  | cons e rest ih =>
    obtain ⟨ke, ps⟩ := e
    by_cases hb : b = ke
    · subst hb
      simp [bappend, innerPosts, cnt_append, cnt]
      omega
    · simp only [bappend, if_neg hb, innerPosts, List.map_cons, List.flatten_cons] at *
      rw [cnt_append, cnt_append, ih]
      omega

theorem allPosts_cons (e : String × List (String × List Post)) (t : CatTree) :
    allPosts (e :: t) = innerPosts e.2 ++ allPosts t := by
  simp [allPosts, innerPosts]

theorem cnt_allPosts_tappend (t : CatTree) (a b : String) (q p : Post) :
    cnt p (allPosts (tappend t a b q)) =
      cnt p (allPosts t) + (if q = p then 1 else 0) := by
  induction t with
  | nil => simp [tappend, allPosts, innerPosts, cnt]
  | cons e rest ih =>
    obtain ⟨ke, inner⟩ := e
    by_cases ha : a = ke
    · subst ha
      have ht : tappend ((a, inner) :: rest) a b q = (a, bappend inner b q) :: rest := by
        simp [tappend]
      rw [ht, allPosts_cons, allPosts_cons, cnt_append, cnt_append, cnt_innerPosts_bappend]
      dsimp only
      omega
    · have ht : tappend ((ke, inner) :: rest) a b q = (ke, inner) :: tappend rest a b q := by
        simp [tappend, ha]
      rw [ht, allPosts_cons, allPosts_cons, cnt_append, cnt_append, ih]
      dsimp only
      omega

theorem categorizeLoop_cnt (ps : List Post) (t : CatTree) (u : List Post) (p : Post) :
    cnt p (allPosts (categorizeLoop ps t u).1) + cnt p (categorizeLoop ps t u).2 =
      cnt p (allPosts t) + cnt p u + cnt p ps := by
  induction ps generalizing t u with
  | nil => simp [categorizeLoop, cnt]
  | cons q rest ih =>
    rcases hp : _extract_pset q with _ | a
    · simp only [categorizeLoop, hp]
      rw [ih]
      simp [cnt_append, cnt]
      omega
    · rcases hq : _extract_problem q with _ | bb <;>
        · simp only [categorizeLoop, hp, hq]
          rw [ih, cnt_allPosts_tappend]
          simp [cnt]
          omega

theorem not_mem_keys_of_alookup_none {β : Type} (m : List (String × β)) (k : String)
    (h : alookup m k = none) : k ∉ m.map Prod.fst := by
  induction m with
  | nil => simp
  | cons e rest ih =>
    by_cases hk : k = e.1
    · simp [alookup, hk] at h
    · simp only [alookup, if_neg hk] at h
      simp [hk, ih h]

theorem allPosts_append (t1 t2 : CatTree) :
    allPosts (t1 ++ t2) = allPosts t1 ++ allPosts t2 := by
  simp [allPosts]

theorem cnt_categorize (posts : List Post) (p : Post) :
    cnt p (allPosts (categorize_posts posts)) = cnt p posts := by
  unfold categorize_posts
  have hinv := categorizeLoop_cnt posts [] [] p
  rw [show allPosts ([] : CatTree) = [] from rfl] at hinv
  simp only [cnt, Nat.zero_add] at hinv
  cases hu : (categorizeLoop posts [] []).2.isEmpty with
  | true =>
    have h2 : (categorizeLoop posts [] []).2 = [] := List.isEmpty_iff.mp hu
    rw [if_pos rfl]
    rw [h2] at hinv
    simpa [cnt] using hinv
  | false =>
    rw [if_neg Bool.false_ne_true]
    have hbase : alookup (categorizeLoop posts [] []).1 "uncategorized" = none :=
      categorizeLoop_uncat_key posts [] [] rfl
    rw [setK_absent _ _ _ (not_mem_keys_of_alookup_none _ _ hbase), allPosts_append,
      cnt_append]
    have h3 : cnt p (allPosts [("uncategorized", [("all", (categorizeLoop posts [] []).2)])]) =
        cnt p (categorizeLoop posts [] []).2 := by
      simp [allPosts, innerPosts, cnt]
    rw [h3]
    omega

/-! ### Field-order refinement lemmas for the extractors -/

theorem findSome?_append {α β : Type} (l1 l2 : List α) (f : α → Option β) :
    (l1 ++ l2).findSome? f =
      match l1.findSome? f with
      | some b => some b
      | none => l2.findSome? f := by
  induction l1 with
  | nil => simp
  | cons a as ih =>
    rcases h : f a with _ | b <;> simp [List.findSome?_cons, h, ih]

theorem extract_pset_eq_specSearch (p : Post) : _extract_pset p = psetSpecSearch p := by
  unfold _extract_pset psetSpecSearch psetSpecFields
  rw [findSome?_append, findSome?_append]
  cases h1 : (p.folders.getD []).findSome? psetGroupSearch with
  | some d => simp [h1]
  | none =>
    cases h2 : (p.tags.getD []).findSome? psetGroupSearch with
    | some d => simp [h2]
    | none =>
      cases h3 : psetGroupSearch (p.title.getD "") with
      | some d => simp [h3, List.findSome?_cons]
      | none =>
        cases h4 : psetGroupSearch (String.mk (((p.content.getD "").data).take 500)) with
        | some d => simp [h3, h4, List.findSome?_cons]
        | none => simp [h3, h4, List.findSome?_cons]

theorem extract_problem_eq_specSearch (p : Post) :
    _extract_problem p = problemSpecSearch p := by
  unfold _extract_problem problemSpecSearch problemSpecFields
  rw [findSome?_append]
  cases h1 : problemGroupSearch (p.title.getD "") with
  | some d => simp [h1, List.findSome?_cons]
  | none =>
    cases h2 : (p.folders.getD []).findSome? problemGroupSearch with
    | some d => simp [h1, h2, List.findSome?_cons, findSome?_append]
    | none =>
      cases h3 : problemGroupSearch (String.mk (((p.content.getD "").data).take 300)) with
      | some d => simp [h1, h2, h3, List.findSome?_cons, findSome?_append]
      | none => simp [h1, h2, h3, List.findSome?_cons, findSome?_append]

theorem extract_pset_trunc (p : Post) :
    _extract_pset p = _extract_pset (truncateContent 500 p) := by
  unfold _extract_pset truncateContent
  simp [List.take_take]

theorem extract_problem_trunc (p : Post) :
    _extract_problem p = _extract_problem (truncateContent 300 p) := by
  unfold _extract_problem truncateContent
  simp [List.take_take]

/-! ### Claim theorems: categorization and extraction -/

/-- C1: for every input list of posts, the tree returned by
`categorize_posts` holds every input post in exactly one
`(assignment, problem)` bucket — each bucket is exactly the input filtered
to the posts routed to that key pair, in input order (stable), and the
occurrence count of every post value over all buckets equals its count in
the input (none dropped, none duplicated). -/
theorem C1_categorize_partition_stable (posts : List Post) :
    (∀ k1 k2, bucketAt (categorize_posts posts) k1 k2 =
        posts.filter (fun p => decide (bucketKeyOf p = (k1, k2)))) ∧
    (∀ p, cnt p (allPosts (categorize_posts posts)) = cnt p posts) :=
  ⟨fun k1 k2 => bucketAt_categorize posts k1 k2, fun p => cnt_categorize posts p⟩

/-- C2: assignment extraction searches folders, then tags, then title,
then the first 500 content characters, patterns in configured order
within each field, first hit winning, returning `"pset" + group(1)`
verbatim (`psetSpecSearch` is that search order written out); and the
folder `"pset2 stuff"` beats the title `"pset9 question"`. -/
theorem C2_pset_search_order :
    (∀ p : Post, _extract_pset p = psetSpecSearch p) ∧
    _extract_pset { folders := some ["pset2 stuff"], title := some "pset9 question" } =
      some "pset2" :=
  ⟨extract_pset_eq_specSearch, by rfl⟩

/-- C3: a post with no assignment match lands in `uncategorized → all`
(whatever problem extraction said), and a post with an assignment match
but no problem match lands in `<assignment> → general`. -/
theorem C3_fallback_routing (posts : List Post) (p : Post) (hmem : p ∈ posts) :
    (_extract_pset p = none →
      p ∈ bucketAt (categorize_posts posts) "uncategorized" "all") ∧
    (∀ a, _extract_pset p = some a → _extract_problem p = none →
      p ∈ bucketAt (categorize_posts posts) a "general") := by
  constructor
  · intro hnone
    rw [bucketAt_categorize]
    refine List.mem_filter.mpr ⟨hmem, ?_⟩
    simp [bucketKeyOf, hnone]
  · intro a ha hprob
    rw [bucketAt_categorize]
    refine List.mem_filter.mpr ⟨hmem, ?_⟩
    simp [bucketKeyOf, ha, probKey, hprob]

/-- Witness for C3 at a concrete input: a matchless post (title
`"hello"`, which matches a problem pattern nowhere and a pset pattern
nowhere) lands in `uncategorized → all`, and a post matching `pset3` via
folder with no problem match lands in `pset3 → general`. -/
theorem C3_fallback_routing_witness :
    ({ title := some "hello" } : Post) ∈
      bucketAt (categorize_posts [{ title := some "hello" }, { folders := some ["pset3"] }])
        "uncategorized" "all" ∧
    ({ folders := some ["pset3"] } : Post) ∈
      bucketAt (categorize_posts [{ title := some "hello" }, { folders := some ["pset3"] }])
        "pset3" "general" := by
  constructor
  · exact (C3_fallback_routing _ _ (by simp)).1 (by rfl)
  · exact (C3_fallback_routing _ _ (by simp)).2 "pset3" (by rfl) (by rfl)

/-- C5: problem extraction searches title, then folders, then the first
300 content characters, with the same first-hit-wins semantics
(`problemSpecSearch` is that search order written out), and returns
`"problem" + group(1).lower()`, preserving a trailing letter or decimal
part (`"problem2a"`, `"problem2.3"`). -/
theorem C5_problem_search_order :
    (∀ p : Post, _extract_problem p = problemSpecSearch p) ∧
    _extract_problem { title := some "Part 2A" } = some "problem2a" ∧
    _extract_problem { content := some "question 2.3 about lr" } = some "problem2.3" :=
  ⟨extract_problem_eq_specSearch, by rfl, by rfl⟩

set_option maxRecDepth 20000 in
/-- C7: both extractors only see a prefix of the content — the first 500
characters for assignments, the first 300 for problems (truncating the
content there changes nothing) — so identifying text that first occurs at
character 600 (resp. 300) is not matched even though a search of the full
content would find it. -/
theorem C7_content_window :
    (∀ p : Post, _extract_pset p = _extract_pset (truncateContent 500 p) ∧
        _extract_problem p = _extract_problem (truncateContent 300 p)) ∧
    _extract_pset { content := some (String.mk (List.replicate 600 'x' ++ "pset7".data)) } =
      none ∧
    psetGroupSearch (String.mk (List.replicate 600 'x' ++ "pset7".data)) = some "7" ∧
    _extract_problem { content := some (String.mk (List.replicate 300 'x' ++ "part 3".data)) } =
      none ∧
    problemGroupSearch (String.mk (List.replicate 300 'x' ++ "part 3".data)) = some "3" :=
  ⟨fun p => ⟨extract_pset_trunc p, extract_problem_trunc p⟩, by rfl, by rfl, by rfl, by rfl⟩

/-! ### Statistics lemmas -/

theorem statsAddPost_total_psets (st : Stats) (p : Post) :
    (statsAddPost st p).total_psets = st.total_psets := by
  unfold statsAddPost
  split <;> rfl

theorem statsOverPosts_total_psets (st : Stats) (l : List Post) :
    (statsOverPosts st l).total_psets = st.total_psets := by
  induction l generalizing st with
  | nil => rfl
  | cons p ps ih => rw [statsOverPosts, ih, statsAddPost_total_psets]

theorem statsOverProblems_total_psets (st : Stats) (c : Nat)
    (l : List (String × List Post)) :
    (statsOverProblems st c l).1.total_psets = st.total_psets := by
  induction l generalizing st c with
  | nil => rfl
  | cons e rest ih =>
    obtain ⟨k2, posts⟩ := e
    rw [statsOverProblems, ih, statsOverPosts_total_psets]

theorem statsLoop_total_psets (st : Stats) (t : CatTree) :
    (statsLoop st t).total_psets =
      st.total_psets + (t.filter (fun e => decide (e.1 ≠ "uncategorized"))).length := by
  induction t generalizing st with
  | nil => simp [statsLoop]
  | cons e rest ih =>
    obtain ⟨k, probs⟩ := e
    by_cases hk : k = "uncategorized"
    · subst hk
      simp only [statsLoop, if_pos rfl, ih, statsOverProblems_total_psets,
        List.filter_cons]
      simp
    · simp only [statsLoop, if_neg hk, ih, statsOverProblems_total_psets,
      List.filter_cons]
      simp [hk]
      omega

/-! ### State-passing versions compute the same and leave the tree alone -/

theorem filterProblemsSt_eq (σ : CatTree) (acc l : List (String × List Post)) :
    filterProblemsSt σ acc l = (σ, filterProblems acc l) := by
  induction l generalizing acc with
  | nil => rfl
  | cons e rest ih =>
    obtain ⟨k2, posts⟩ := e
    simp only [filterProblemsSt, filterProblems]
    exact ih _

theorem filterOuterSt_eq (σ acc l : CatTree) :
    filterOuterSt σ acc l = (σ, filterOuter acc l) := by
  induction l generalizing σ acc with
  | nil => rfl
  | cons e rest ih =>
    obtain ⟨k1, probs⟩ := e
    simp only [filterOuterSt, filterOuter, filterProblemsSt_eq]
    exact ih _ _

theorem statsOverPostsSt_eq (σ : CatTree) (st : Stats) (l : List Post) :
    statsOverPostsSt σ st l = (σ, statsOverPosts st l) := by
  induction l generalizing st with
  | nil => rfl
  | cons p ps ih =>
    simp only [statsOverPostsSt, statsOverPosts]
    exact ih _

theorem statsOverProblemsSt_eq (σ : CatTree) (st : Stats) (c : Nat)
    (l : List (String × List Post)) :
    statsOverProblemsSt σ st c l = (σ, statsOverProblems st c l) := by
  induction l generalizing st c with
  | nil => rfl
  | cons e rest ih =>
    obtain ⟨k2, posts⟩ := e
    simp only [statsOverProblemsSt, statsOverProblems, statsOverPostsSt_eq]
    exact ih _ _

theorem statsLoopSt_eq (σ : CatTree) (st : Stats) (l : CatTree) :
    statsLoopSt σ st l = (σ, statsLoop st l) := by
  induction l generalizing σ st with
  | nil => rfl
  | cons e rest ih =>
    obtain ⟨k, probs⟩ := e
    simp only [statsLoopSt, statsLoop, statsOverProblemsSt_eq]
    exact ih _ _

/-! ### Default-filling lemmas for missing fields -/

theorem extract_pset_fillDefaults (p : Post) :
    _extract_pset (fillDefaults p) = _extract_pset p := rfl

theorem extract_problem_fillDefaults (p : Post) :
    _extract_problem (fillDefaults p) = _extract_problem p := rfl

theorem bappend_map_post (f : Post → Post) (m : List (String × List Post))
    (k : String) (p : Post) :
    (bappend m k p).map (fun e2 => (e2.1, e2.2.map f)) =
      bappend (m.map (fun e2 => (e2.1, e2.2.map f))) k (f p) := by
  induction m with
  | nil => simp [bappend]
  | cons e rest ih =>
    obtain ⟨ke, ps⟩ := e
    by_cases hk : k = ke <;> simp [bappend, hk, ih]

theorem tappend_treeMap (f : Post → Post) (t : CatTree) (a b : String) (p : Post) :
    treeMap f (tappend t a b p) = tappend (treeMap f t) a b (f p) := by
  induction t with
  | nil => simp [tappend, treeMap]
  | cons e rest ih =>
    obtain ⟨ke, inner⟩ := e
    by_cases hk : a = ke <;> simp [tappend, treeMap, hk, bappend_map_post, ih] <;>
      simpa [treeMap] using ih

theorem setK_treeMap (f : Post → Post) (t : CatTree) (k : String)
    (v : List (String × List Post)) :
    treeMap f (setK t k v) =
      setK (treeMap f t) k (v.map (fun e2 => (e2.1, e2.2.map f))) := by
  induction t with
  | nil => simp [setK, treeMap]
  | cons e rest ih =>
    obtain ⟨ke, inner⟩ := e
    by_cases hk : k = ke <;> simp [setK, treeMap, hk, ih] <;>
      simpa [treeMap] using ih

theorem categorizeLoop_map_fill (ps : List Post) (t : CatTree) (u : List Post) :
    categorizeLoop (ps.map fillDefaults) (treeMap fillDefaults t) (u.map fillDefaults) =
      (treeMap fillDefaults (categorizeLoop ps t u).1,
        (categorizeLoop ps t u).2.map fillDefaults) := by
  induction ps generalizing t u with
  | nil => rfl
  | cons p rest ih =>
    rcases hp : _extract_pset p with _ | a
    · have hp' : _extract_pset (fillDefaults p) = none := by
        rw [extract_pset_fillDefaults, hp]
      simp only [List.map_cons, categorizeLoop, hp, hp']
      rw [show (u.map fillDefaults ++ [fillDefaults p]) = (u ++ [p]).map fillDefaults by simp]
      exact ih _ _
    · have hp' : _extract_pset (fillDefaults p) = some a := by
        rw [extract_pset_fillDefaults, hp]
      rcases hq : _extract_problem p with _ | bb
      · have hq' : _extract_problem (fillDefaults p) = none := by
          rw [extract_problem_fillDefaults, hq]
        simp only [List.map_cons, categorizeLoop, hp, hp', hq, hq']
        rw [← tappend_treeMap]
        exact ih _ _
      · have hq' : _extract_problem (fillDefaults p) = some bb := by
          rw [extract_problem_fillDefaults, hq]
        simp only [List.map_cons, categorizeLoop, hp, hp', hq, hq']
        rw [← tappend_treeMap]
        exact ih _ _

theorem categorize_posts_map_fill (posts : List Post) :
    categorize_posts (posts.map fillDefaults) =
      treeMap fillDefaults (categorize_posts posts) := by
  unfold categorize_posts
  have h := categorizeLoop_map_fill posts [] []
  simp only [List.map_nil] at h
  rw [show treeMap fillDefaults [] = [] from rfl] at h
  rw [h]
  dsimp only
  cases hu : (categorizeLoop posts [] []).2.isEmpty with
  | true =>
    have h2 : (categorizeLoop posts [] []).2 = [] := List.isEmpty_iff.mp hu
    simp [h2]
  | false =>
    have h2 : (categorizeLoop posts [] []).2 ≠ [] := by
      intro hc
      rw [hc] at hu
      simp at hu
    have hm : ((categorizeLoop posts [] []).2.map fillDefaults).isEmpty = false := by
      cases hc : (categorizeLoop posts [] []).2 with
      | nil => exact absurd hc h2
      | cons a l => simp [hc]
    rw [if_neg (by simp [hm]), if_neg Bool.false_ne_true, setK_treeMap]
    rfl

theorem statsAddPost_fillDefaults (st : Stats) (p : Post) :
    statsAddPost st (fillDefaults p) = statsAddPost st p := rfl

theorem statsOverPosts_map_fill (st : Stats) (l : List Post) :
    statsOverPosts st (l.map fillDefaults) = statsOverPosts st l := by
  induction l generalizing st with
  | nil => rfl
  | cons p ps ih =>
    simp only [List.map_cons, statsOverPosts, statsAddPost_fillDefaults]
    exact ih _

theorem statsOverProblems_map_fill (st : Stats) (c : Nat)
    (l : List (String × List Post)) :
    statsOverProblems st c (l.map (fun e2 => (e2.1, e2.2.map fillDefaults))) =
      statsOverProblems st c l := by
  induction l generalizing st c with
  | nil => rfl
  | cons e rest ih =>
    obtain ⟨k2, posts⟩ := e
    simp only [List.map_cons, statsOverProblems, statsOverPosts_map_fill,
      List.length_map]
    exact ih _ _

theorem get_statistics_treeMap_fill (t : CatTree) :
    get_statistics (treeMap fillDefaults t) = get_statistics t := by
  unfold get_statistics
  generalize statsInit = st
  induction t generalizing st with
  | nil => rfl
  | cons e rest ih =>
    obtain ⟨k, probs⟩ := e
    simp only [treeMap, List.map_cons, statsLoop, statsOverProblems_map_fill]
    exact ih _

/-- C6: `get_statistics` counts `total_psets` as the number of top-level
keys other than `"uncategorized"`, even when `"uncategorized"` holds
posts; on a tree with 5 posts under `pset1` (3 resolved) plus 2 posts
under `uncategorized` it reports `total_psets = 1`, `total_posts = 7`,
`resolved_count = 3`. -/
theorem C6_statistics_total_psets :
    (∀ t : CatTree, (get_statistics t).total_psets =
        (t.filter (fun e => decide (e.1 ≠ "uncategorized"))).length) ∧
    (get_statistics
        [("pset1", [("general",
            [{ is_resolved := some true }, { is_resolved := some true },
             { is_resolved := some true }, { is_resolved := some false }, {}])]),
         ("uncategorized", [("all", [{}, { title := some "lost" }])])]).total_psets = 1 ∧
    (get_statistics
        [("pset1", [("general",
            [{ is_resolved := some true }, { is_resolved := some true },
             { is_resolved := some true }, { is_resolved := some false }, {}])]),
         ("uncategorized", [("all", [{}, { title := some "lost" }])])]).total_posts = 7 ∧
    (get_statistics
        [("pset1", [("general",
            [{ is_resolved := some true }, { is_resolved := some true },
             { is_resolved := some true }, { is_resolved := some false }, {}])]),
         ("uncategorized", [("all", [{}, { title := some "lost" }])])]).resolved_count = 3 :=
  ⟨fun t => by
      unfold get_statistics
      rw [statsLoop_total_psets]
      simp [statsInit],
    by rfl, by rfl, by rfl⟩

/-- C8: a post record with absent fields behaves exactly like the record
with every absent field replaced by the source's `dict.get` default —
extraction, categorization and statistics cannot distinguish them (and,
the embedding being total, no access can fail): absence is a normal
input, not an error. -/
theorem C8_missing_fields_are_defaults (p : Post) (posts : List Post) (t : CatTree) :
    _extract_pset (fillDefaults p) = _extract_pset p ∧
    _extract_problem (fillDefaults p) = _extract_problem p ∧
    categorize_posts (posts.map fillDefaults) =
      treeMap fillDefaults (categorize_posts posts) ∧
    get_statistics (treeMap fillDefaults t) = get_statistics t :=
  ⟨extract_pset_fillDefaults p, extract_problem_fillDefaults p,
    categorize_posts_map_fill posts, get_statistics_treeMap_fill t⟩

/-- C9: with the caller's tree threaded through `filter_student_posts`
and `get_statistics` as explicit state (the embedding of the Python
heap object they receive), both calls return the tree unchanged while
computing the usual result: filtering builds a new tree and statistics
are recomputed without caching or in-place mutation. -/
theorem C9_input_tree_unchanged (t : CatTree) :
    (filter_student_posts_st t).1 = t ∧
    (filter_student_posts_st t).2 = filter_student_posts t ∧
    (get_statistics_st t).1 = t ∧
    (get_statistics_st t).2 = get_statistics t := by
  refine ⟨?_, ?_, ?_, ?_⟩ <;>
    simp [filter_student_posts_st, filterOuterSt_eq, filter_student_posts,
      get_statistics_st, statsLoopSt_eq, get_statistics]

/-! ### The shape of `filter_student_posts` -/

theorem studentFilterPosts_eq_filter (l : List Post) :
    studentFilterPosts l = l.filter roleAllowed := by
  induction l with
  | nil => rfl
  | cons p ps ih =>
    by_cases h : roleAllowed p <;> simp [studentFilterPosts, List.filter_cons, h, ih]

theorem mem_studentFilterPosts (l : List Post) (p : Post) :
    p ∈ studentFilterPosts l ↔ p ∈ l ∧ roleAllowed p = true := by
  rw [studentFilterPosts_eq_filter]
  exact List.mem_filter

theorem roleAllowed_iff (p : Post) :
    roleAllowed p = true ↔
      p.author_role = some "student" ∨ p.author_role = some "anonymous" := by
  rcases h : p.author_role with _ | r <;> simp [roleAllowed, h]

theorem filterProblems_acc (acc l : List (String × List Post))
    (hnd : (l.map Prod.fst).Nodup)
    (hdisj : ∀ k, k ∈ l.map Prod.fst → k ∉ acc.map Prod.fst) :
    filterProblems acc l = acc ++ innerFiltered l := by
  induction l generalizing acc with
  | nil => simp [filterProblems, innerFiltered]
  | cons e rest ih =>
    obtain ⟨k2, posts⟩ := e
    simp only [List.map_cons, List.nodup_cons] at hnd
    cases hsp : (studentFilterPosts posts).isEmpty with
    | true =>
      have hsp' : studentFilterPosts posts = [] := List.isEmpty_iff.mp hsp
      have hstep : filterProblems acc ((k2, posts) :: rest) = filterProblems acc rest := by
        simp [filterProblems, hsp']
      rw [hstep]
      rw [ih acc hnd.2 (fun k hk => hdisj k (by
        simp only [List.map_cons, List.mem_cons]
        exact Or.inr hk))]
      simp [innerFiltered, List.filterMap_cons, hsp']
    | false =>
      have hk2 : k2 ∉ acc.map Prod.fst := hdisj k2 (by simp)
      have hstep : filterProblems acc ((k2, posts) :: rest) =
          filterProblems (setK acc k2 (studentFilterPosts posts)) rest := by
        simp [filterProblems, hsp]
      rw [hstep, setK_absent _ _ _ hk2]
      rw [ih (acc ++ [(k2, studentFilterPosts posts)]) hnd.2 (fun k hk => by
        simp only [List.map_append, List.mem_append]
        push_neg
        constructor
        · exact hdisj k (by
            simp only [List.map_cons, List.mem_cons]
            exact Or.inr hk)
        · simp only [List.map_cons, List.map_nil, List.mem_singleton]
          intro hc
          exact hnd.1 (hc ▸ hk))]
      simp only [innerFiltered, List.filterMap_cons, hsp, if_neg Bool.false_ne_true]
      simp [List.append_assoc, innerFiltered]

theorem filterOuter_acc (acc l : CatTree)
    (hnd : (l.map Prod.fst).Nodup)
    (hinner : ∀ e ∈ l, (e.2.map Prod.fst).Nodup)
    (hdisj : ∀ k, k ∈ l.map Prod.fst → k ∉ acc.map Prod.fst) :
    filterOuter acc l = acc ++ l.map (fun e => (e.1, innerFiltered e.2)) := by
  induction l generalizing acc with
  | nil => simp [filterOuter]
  | cons e rest ih =>
    obtain ⟨k1, probs⟩ := e
    simp only [List.map_cons, List.nodup_cons] at hnd
    have hk1 : k1 ∉ acc.map Prod.fst := hdisj k1 (by simp)
    have hfp : filterProblems [] probs = innerFiltered probs := by
      have := filterProblems_acc [] probs (hinner (k1, probs) (by simp)) (by simp)
      simpa using this
    simp only [filterOuter]
    rw [setK_absent _ _ _ hk1, setK_append_last _ _ _ _ hk1, hfp]
    rw [ih (acc ++ [(k1, innerFiltered probs)]) hnd.2
      (fun e2 he2 => hinner e2 (by simp [he2]))
      (fun k hk => by
        simp only [List.map_append, List.mem_append]
        push_neg
        constructor
        · exact hdisj k (by
            simp only [List.map_cons, List.mem_cons]
            exact Or.inr hk)
        · simp only [List.map_cons, List.map_nil, List.mem_singleton]
          intro hc
          exact hnd.1 (hc ▸ hk))]
    simp [List.append_assoc]

/-- Under dict well-formedness, `filter_student_posts` maps every outer
entry to its role-filtered inner map with empty buckets dropped. -/
theorem filter_student_posts_eq (t : CatTree) (hwf : treeWF t) :
    filter_student_posts t = t.map (fun e => (e.1, innerFiltered e.2)) := by
  unfold filter_student_posts
  have := filterOuter_acc [] t hwf.1 hwf.2 (by simp)
  simpa using this

theorem mem_keys_innerFiltered (probs : List (String × List Post)) (k : String)
    (h : k ∈ (innerFiltered probs).map Prod.fst) : k ∈ probs.map Prod.fst := by
  induction probs with
  | nil => simpa [innerFiltered] using h
  | cons e rest ih =>
    obtain ⟨ke, posts⟩ := e
    simp only [innerFiltered, List.filterMap_cons] at h
    cases hsp : (studentFilterPosts posts).isEmpty with
    | true =>
      rw [hsp] at h
      simp only [if_pos rfl] at h
      exact List.mem_cons_of_mem _ (ih h)
    | false =>
      rw [hsp] at h
      simp only [if_neg Bool.false_ne_true, List.map_cons, List.mem_cons] at h
      rcases h with h | h
      · simp [h]
      · exact List.mem_cons_of_mem _ (ih h)

theorem alookup_mem {β : Type} (m : List (String × β)) (k : String) (v : β)
    (h : alookup m k = some v) : (k, v) ∈ m := by
  induction m with
  | nil => simp [alookup] at h
  | cons e rest ih =>
    obtain ⟨ke, ve⟩ := e
    by_cases hk : k = ke
    · subst hk
      simp [alookup] at h
      subst h
      exact List.mem_cons_self _ _
    · simp only [alookup, if_neg hk] at h
      exact List.mem_cons_of_mem _ (ih h)

theorem alookup_innerFiltered (probs : List (String × List Post)) (k2 : String)
    (hnd : (probs.map Prod.fst).Nodup) :
    alookup (innerFiltered probs) k2 =
      match alookup probs k2 with
      | some posts =>
        if (studentFilterPosts posts).isEmpty then none
        else some (studentFilterPosts posts)
      | none => none := by
  induction probs with
  | nil => rfl
  | cons e rest ih =>
    obtain ⟨ke, posts⟩ := e
    simp only [List.map_cons, List.nodup_cons] at hnd
    by_cases hk : k2 = ke
    · subst hk
      cases hsp : (studentFilterPosts posts).isEmpty with
      | true =>
        have hsp' : studentFilterPosts posts = [] := List.isEmpty_iff.mp hsp
        have h1 : innerFiltered ((k2, posts) :: rest) = innerFiltered rest := by
          simp [innerFiltered, List.filterMap_cons, hsp']
        have h2 : alookup (innerFiltered rest) k2 = none :=
          alookup_eq_none_of_not_mem _ _
            (fun hc => hnd.1 (mem_keys_innerFiltered rest k2 hc))
        rw [h1, h2]
        simp [alookup, hsp]
      | false =>
        have hsp' : studentFilterPosts posts ≠ [] := by
          intro hc
          rw [hc] at hsp
          simp at hsp
        have h1 : innerFiltered ((k2, posts) :: rest) =
            (k2, studentFilterPosts posts) :: innerFiltered rest := by
          simp [innerFiltered, List.filterMap_cons, hsp']
        rw [h1]
        simp [alookup, hsp]
    · cases hsp : (studentFilterPosts posts).isEmpty with
      | true =>
        have hsp' : studentFilterPosts posts = [] := List.isEmpty_iff.mp hsp
        have h1 : innerFiltered ((ke, posts) :: rest) = innerFiltered rest := by
          simp [innerFiltered, List.filterMap_cons, hsp']
        rw [h1, ih hnd.2]
        simp [alookup, hk]
      | false =>
        have hsp' : studentFilterPosts posts ≠ [] := by
          intro hc
          rw [hc] at hsp
          simp at hsp
        have h1 : innerFiltered ((ke, posts) :: rest) =
            (ke, studentFilterPosts posts) :: innerFiltered rest := by
          simp [innerFiltered, List.filterMap_cons, hsp']
        rw [h1]
        simp only [alookup, if_neg hk]
        exact ih hnd.2

theorem bucketAt_filter_student (t : CatTree) (hwf : treeWF t) (k1 k2 : String) :
    bucketAt (filter_student_posts t) k1 k2 =
      studentFilterPosts (bucketAt t k1 k2) := by
  rw [filter_student_posts_eq t hwf]
  unfold bucketAt
  rw [alookup_map_value]
  cases h1 : alookup t k1 with
  | none => rfl
  | some probs =>
    simp only [Option.map_some', Option.getD_some]
    rw [alookup_innerFiltered probs k2 (hwf.2 (k1, probs) (alookup_mem t k1 probs h1))]
    cases h2 : alookup probs k2 with
    | none => rfl
    | some posts =>
      cases hsp : (studentFilterPosts posts).isEmpty with
      | true =>
        have : studentFilterPosts posts = [] := List.isEmpty_iff.mp hsp
        simp [hsp, this]
      | false => simp [hsp]

/-! ### Claim theorems: filtering -/

/-- C4 counterexample: filtering a tree whose single `pset1 → general`
bucket holds only an instructor post leaves the assignment-level key
`"pset1"` present and mapped to an empty inner map — a key with zero
posts under it is materialized in the filtered result, so the claim (key
absent at either level) is false as stated. -/
theorem C4_empty_bucket_counterexample :
    alookup
        (filter_student_posts
          [("pset1", [("general", [{ author_role := some "instructor" }])])])
        "pset1" = some [] ∧
    bucketAt [("pset1", [("general", [{ author_role := some "instructor" }])])]
        "pset1" "general" ≠ [] :=
  ⟨by rfl, by decide⟩

/-- C4 (amended): role filtering omits every problem-level bucket that
becomes empty — its key is absent, and surviving problem keys hold
exactly the nonempty filtered sequences — but at the assignment level
every key of the input is retained, even one left with zero posts
(unlike a freshly built tree). -/
theorem C4_amended_empty_buckets (t : CatTree) (hwf : treeWF t) :
    (filter_student_posts t).map Prod.fst = t.map Prod.fst ∧
    (∀ k1 inner, alookup (filter_student_posts t) k1 = some inner →
      ∀ k2, alookup inner k2 =
        (if (studentFilterPosts (bucketAt t k1 k2)).isEmpty then none
         else some (studentFilterPosts (bucketAt t k1 k2)))) := by
  constructor
  · rw [filter_student_posts_eq t hwf]
    simp
  · intro k1 inner hinner k2
    rw [filter_student_posts_eq t hwf, alookup_map_value] at hinner
    rcases Option.map_eq_some'.mp hinner with ⟨probs, hprobs, rfl⟩
    rw [alookup_innerFiltered probs k2 (hwf.2 (k1, probs) (alookup_mem t k1 probs hprobs))]
    unfold bucketAt
    rw [hprobs]
    simp only [Option.getD_some]
    cases h2 : alookup probs k2 with
    | none => simp [studentFilterPosts]
    | some posts => simp

/-- Witness for C4 (amended) at a concrete input: a tree whose `pset1`
posts are all instructor-authored keeps both assignment keys after
filtering, and the emptied `pset1` inner map answers `none` for
`"general"`. -/
theorem C4_amended_empty_buckets_witness :
    (filter_student_posts
        [("pset1", [("general", [{ author_role := some "instructor" }])]),
         ("pset2", [("general", [{ author_role := some "student" }])])]).map Prod.fst =
      ["pset1", "pset2"] ∧
    alookup ([] : List (String × List Post)) "general" =
      (if (studentFilterPosts
            (bucketAt
              [("pset1", [("general", [{ author_role := some "instructor" }])]),
               ("pset2", [("general", [{ author_role := some "student" }])])]
              "pset1" "general")).isEmpty then none
       else some (studentFilterPosts
            (bucketAt
              [("pset1", [("general", [{ author_role := some "instructor" }])]),
               ("pset2", [("general", [{ author_role := some "student" }])])]
              "pset1" "general"))) := by
  have h := C4_amended_empty_buckets
    [("pset1", [("general", [{ author_role := some "instructor" }])]),
     ("pset2", [("general", [{ author_role := some "student" }])])] (by decide)
  exact ⟨h.1.trans (by rfl), h.2 "pset1" [] (by rfl) "general"⟩

/-- C10: `filter_student_posts` keeps exactly the posts whose
`author_role` is `"student"` or `"anonymous"`; a post with an absent
`author_role`, or any other value (instructor, ta, ...), is silently
dropped from every bucket. -/
theorem C10_role_filter (t : CatTree) (hwf : treeWF t) (k1 k2 : String) (p : Post) :
    p ∈ bucketAt (filter_student_posts t) k1 k2 ↔
      p ∈ bucketAt t k1 k2 ∧
        (p.author_role = some "student" ∨ p.author_role = some "anonymous") := by
  rw [bucketAt_filter_student t hwf, mem_studentFilterPosts, roleAllowed_iff]

/-- Witness for C10 at a concrete input: the student post survives
filtering, the post with the `author_role` field missing is dropped. -/
theorem C10_role_filter_witness :
    ({ author_role := some "student" } : Post) ∈
      bucketAt
        (filter_student_posts
          [("pset1", [("general", [{ author_role := some "student" }, {}])])])
        "pset1" "general" ∧
    ({} : Post) ∉
      bucketAt
        (filter_student_posts
          [("pset1", [("general", [{ author_role := some "student" }, {}])])])
        "pset1" "general" := by
  constructor
  · exact (C10_role_filter _ (by decide) "pset1" "general" _).mpr ⟨by decide, Or.inl rfl⟩
  · intro hc
    rcases (C10_role_filter _ (by decide) "pset1" "general" _).mp hc with ⟨_, h | h⟩ <;>
      simp at h

